import Mathlib

/-!
# Verification of the personal expense tracker (`src/project.py`)

Shallow embedding of `project.py`.  Conventions of the embedding:

* Python `float` amounts are modelled exactly as rationals (`ℚ`); the claims
  under study are about arithmetic sums, not rounding.
* `datetime.date` values are modelled by `Date` (year/month/day with
  calendar comparison, exactly Python's field-lexicographic order); the year
  is an `Int` so that `timedelta` subtraction is total.
* `date.today()` is passed in explicitly as a `today : Date` parameter,
  evaluated once per call as in the source.
* The SQLite database behind `DB_PATH` is modelled as `DBState`:
  `none` when the `expenses` table is absent, `some t` when it exists,
  where `t` keeps the rows (with their AUTOINCREMENT ids) and the next id.
  `CREATE TABLE IF NOT EXISTS`, `INSERT`, `SELECT` and
  `SELECT category, SUM(amount) ... GROUP BY category` are modelled by the
  corresponding pure state transformations; grouping is keyed by first
  occurrence, which fixes an order for the unordered SQL result.
* Python exceptions (`ValueError` from `date.fromisoformat`, i.e. the
  spec's `DataIntegrityError`) are modelled with `Except String`, the
  payload being the offending date string.
* Python dicts are modelled as insertion-ordered association lists.
* `matplotlib` output is modelled by the produced file name (if any)
  together with the printed diagnostic.
-/

namespace ExpenseTracker

/-- A calendar date, as Python's `datetime.date`: compared field-lexicographically. -/
structure Date where
  year : Int
  month : Nat
  day : Nat
deriving DecidableEq, Repr

/-- Python `date.__le__`: lexicographic on (year, month, day). -/
def dateLe (a b : Date) : Bool :=
  decide (a.year < b.year ∨ (a.year = b.year ∧
    (a.month < b.month ∨ (a.month = b.month ∧ a.day ≤ b.day))))

/-- Gregorian leap year, as `calendar.isleap` / `datetime`. -/
def isLeap (y : Int) : Bool :=
  y % 4 == 0 && (y % 100 != 0 || y % 400 == 0)

/-- Number of days of month `m` of year `y` (Gregorian). -/
def daysInMonth (y : Int) (m : Nat) : Nat :=
  if m == 2 then (if isLeap y then 29 else 28)
  else if m == 4 || m == 6 || m == 9 || m == 11 then 30
  else 31

/-- The previous calendar day (one step of `timedelta(days=1)` subtraction). -/
def predDay (d : Date) : Date :=
  if 1 < d.day then ⟨d.year, d.month, d.day - 1⟩
  else if 1 < d.month then ⟨d.year, d.month - 1, daysInMonth d.year (d.month - 1)⟩
  else ⟨d.year - 1, 12, 31⟩

/-- `d - timedelta(days=n)`. -/
def subDays (d : Date) : Nat → Date
  | 0 => d
  | n + 1 => predDay (subDays d n)

/-- Numeric value of a digit character. -/
def digitVal (c : Char) : Nat := c.toNat - 48

/-- `date.fromisoformat` on the `YYYY-MM-DD` form: four digit year (≥ 1),
two digit month and day, validated against the Gregorian calendar;
anything else raises `ValueError`, i.e. yields `none`. -/
def parseIsoDate (s : String) : Option Date :=
  match s.toList with
  | [y1, y2, y3, y4, h1, m1, m2, h2, d1, d2] =>
    if y1.isDigit && y2.isDigit && y3.isDigit && y4.isDigit && h1 == '-' &&
       m1.isDigit && m2.isDigit && h2 == '-' && d1.isDigit && d2.isDigit then
      let y : Nat := 1000 * digitVal y1 + 100 * digitVal y2 + 10 * digitVal y3 + digitVal y4
      let mo : Nat := 10 * digitVal m1 + digitVal m2
      let da : Nat := 10 * digitVal d1 + digitVal d2
      if 1 ≤ y ∧ 1 ≤ mo ∧ mo ≤ 12 ∧ 1 ≤ da ∧ da ≤ daysInMonth (y : Int) mo then
        some ⟨(y : Int), mo, da⟩
      else none
    else none
  | _ => none

/-- Left-pad a numeral to two digits. -/
def pad2 (n : Nat) : String :=
  if n < 10 then "0" ++ toString n else toString n

/-- Left-pad a numeral to four digits. -/
def pad4 (n : Nat) : String :=
  if n < 10 then "000" ++ toString n
  else if n < 100 then "00" ++ toString n
  else if n < 1000 then "0" ++ toString n
  else toString n

/-- `date.isoformat`: `YYYY-MM-DD`. -/
def isoFormat (d : Date) : String :=
  pad4 d.year.toNat ++ "-" ++ pad2 d.month ++ "-" ++ pad2 d.day

/-! ## Storage model -/

/-- One row of the `expenses` table. -/
structure Row where
  id : Nat
  amount : ℚ
  category : String
  date : String
deriving DecidableEq, Repr

/-- The `expenses` table: its rows in insertion order and the next
AUTOINCREMENT id. -/
structure Table where
  rows : List Row
  nextId : Nat
deriving DecidableEq, Repr

/-- The database file: `none` while the `expenses` table does not exist. -/
abbrev DBState : Type := Option Table

/-- The record shape surfaced to callers: `{"amount":…, "category":…, "date":…}`. -/
structure Entry where
  amount : ℚ
  category : String
  date : String
deriving DecidableEq, Repr

/-- Drop the id, as `SELECT amount, category, date` does. -/
def rowEntry (r : Row) : Entry := ⟨r.amount, r.category, r.date⟩

/-- `initialize_db`: `CREATE TABLE IF NOT EXISTS expenses (...)`. -/
def initialize_db (db : DBState) : DBState :=
  match db with
  | none => some ⟨[], 1⟩
  | some t => some t

/-- The table guaranteed to exist after `initialize_db`. -/
def tableAfterInit (db : DBState) : Table :=
  match initialize_db db with
  | some t => t
  | none => ⟨[], 1⟩

/-- The full-table scan `SELECT amount, category, date FROM expenses`
(on the post-`initialize_db` state). -/
def entriesOf (db : DBState) : List Entry :=
  (tableAfterInit db).rows.map rowEntry

/-- `add_expense(amount, category, on_date, db_path)`: defaults the date to
`today.isoformat()`, ensures the table, inserts one row with a fresh id and
returns the entry dict together with the new database state. -/
def add_expense (amount : ℚ) (category : String) (on_date : Option String)
    (today : Date) (db : DBState) : Entry × DBState :=
  let onDate := on_date.getD (isoFormat today)
  let t := tableAfterInit db
  (⟨amount, category, onDate⟩,
   some ⟨t.rows ++ [⟨t.nextId, amount, category, onDate⟩], t.nextId + 1⟩)

/-- `get_all_expenses(db_path)`: every stored record as an entry dict. -/
def get_all_expenses (db : DBState) : List Entry × DBState :=
  (entriesOf db, initialize_db db)

/-! ## Grouping (Python dicts / SQL `GROUP BY`) -/

/-- `m[k] = m.get(k, 0) + v` on an insertion-ordered dict. -/
def upsert (m : List (String × ℚ)) (k : String) (v : ℚ) : List (String × ℚ) :=
  match m with
  | [] => [(k, v)]
  | (k', v') :: rest =>
    if k' = k then (k', v' + v) :: rest else (k', v') :: upsert rest k v

/-- Dict lookup. -/
def lookupA (c : String) : List (String × ℚ) → Option ℚ
  | [] => none
  | (k, v) :: m => if k = c then some v else lookupA c m

/-- Per-category sums of a record list, keyed by first occurrence: the loop
of `generate_report` and the model of `SELECT category, SUM(amount) FROM
expenses GROUP BY category`. -/
def groupSums (es : List Entry) : List (String × ℚ) :=
  es.foldl (fun m e => upsert m e.category e.amount) []

/-- `get_total_by_category(db_path)`. -/
def get_total_by_category (db : DBState) : List (String × ℚ) × DBState :=
  (groupSums (entriesOf db), initialize_db db)

/-! ## Aggregator -/

/-- The report periods admitted by the command surface
(`choices=["daily","weekly","monthly","all"]`). -/
inductive Period where
  | daily
  | weekly
  | monthly
  | all
deriving DecidableEq, Repr

/-- The period string echoed into the report. -/
def periodStr : Period → String
  | .daily => "daily"
  | .weekly => "weekly"
  | .monthly => "monthly"
  | .all => "all"

/-- `cutoff_map[period]`: today, today - 7 days, today - 30 days. -/
def cutoffFor (p : Period) (today : Date) : Date :=
  match p with
  | .daily => today
  | .weekly => subDays today 7
  | .monthly => subDays today 30
  | .all => today

/-- The filter predicate `date.fromisoformat(e["date"]) >= cutoff`, as a
total Boolean (parse failure handled separately). -/
def keepB (cutoff : Date) (e : Entry) : Bool :=
  match parseIsoDate e.date with
  | some d => dateLe cutoff d
  | none => false

/-- `[e for e in expenses if date.fromisoformat(e["date"]) >= cutoff]`,
raising (`Except.error` with the offending string) at the first date that
fails to parse. -/
def filterKeep (cutoff : Date) : List Entry → Except String (List Entry)
  | [] => .ok []
  | e :: es =>
    match parseIsoDate e.date with
    | none => .error e.date
    | some d =>
      match filterKeep cutoff es with
      | .error s => .error s
      | .ok rest => .ok (if dateLe cutoff d then e :: rest else rest)

/-- The `if period != "all"` filtering step of `generate_report`. -/
def filterByPeriod (p : Period) (today : Date) (es : List Entry) :
    Except String (List Entry) :=
  match p with
  | .all => .ok es
  | _ => filterKeep (cutoffFor p today) es

/-- The value of the filtering step when every date parses. -/
def windowFilter (p : Period) (today : Date) (es : List Entry) : List Entry :=
  match p with
  | .all => es
  | _ => es.filter (keepB (cutoffFor p today))

/-- `dates.append(date.fromisoformat(e["date"]))` over the filtered list,
raising at the first date that fails to parse. -/
def collectDates : List Entry → Except String (List Date)
  | [] => .ok []
  | e :: es =>
    match parseIsoDate e.date with
    | none => .error e.date
    | some d =>
      match collectDates es with
      | .error s => .error s
      | .ok ds => .ok (d :: ds)

/-- Python `min` step on dates (keeps the earlier, first on ties). -/
def dateMin (a b : Date) : Date := if dateLe b a && !(dateLe a b) then b else a

/-- Python `max` step on dates (keeps the later, first on ties). -/
def dateMax (a b : Date) : Date := if dateLe a b && !(dateLe b a) then b else a

/-- `min(dates) if dates else None`. -/
def minDates : List Date → Option Date
  | [] => none
  | d :: ds => some (ds.foldl dateMin d)

/-- `max(dates) if dates else None`. -/
def maxDates : List Date → Option Date
  | [] => none
  | d :: ds => some (ds.foldl dateMax d)

/-- The report dict of `generate_report`. -/
structure Report where
  period : String
  total : ℚ
  by_category : List (String × ℚ)
  first_date : Option String
  last_date : Option String
deriving DecidableEq, Repr

/-- `generate_report(period, db_path)`: scan all rows, filter by the period
window against `today`, and fold the filtered records into the summary. -/
def generate_report (p : Period) (today : Date) (db : DBState) :
    Except String Report :=
  let expenses := entriesOf db
  match filterByPeriod p today expenses with
  | .error s => .error s
  | .ok filtered =>
    match collectDates filtered with
    | .error s => .error s
    | .ok dates =>
      .ok { period := periodStr p
          , total := (filtered.map Entry.amount).sum
          , by_category := groupSums filtered
          , first_date := (minDates dates).map isoFormat
          , last_date := (maxDates dates).map isoFormat }

/-! ## Derived notions used in the specification statements -/

/-- Sum of the values of a category mapping. -/
def sumVals (m : List (String × ℚ)) : ℚ := (m.map Prod.snd).sum

/-- Sum of the amounts of the records of category `c`. -/
def sumCat (c : String) (es : List Entry) : ℚ :=
  ((es.filter (fun e => e.category == c)).map Entry.amount).sum

/-- Whether category `c` occurs among the records. -/
def catSeen (c : String) (es : List Entry) : Bool :=
  es.any (fun e => e.category == c)

/-- The keys of a category mapping. -/
def keysOf (m : List (String × ℚ)) : List String := m.map Prod.fst

/-- Every record's date string parses as an ISO calendar date. -/
abbrev allParse (es : List Entry) : Prop :=
  ∀ e ∈ es, (parseIsoDate e.date).isSome

/-- The dates of a record list (those that parse). -/
def datesOf (es : List Entry) : List Date :=
  es.filterMap (fun e => parseIsoDate e.date)

/-! ## Presentation -/

/-- Observable outcome of `plot_expenses`: the saved file, if any, and the
printed message. -/
structure PlotOutcome where
  file : Option String
  message : String
deriving DecidableEq, Repr

/-- `plot_expenses(period, db_path)`: no chart and a diagnostic when
`by_category` is empty, otherwise a PNG named from the period. -/
def plot_expenses (p : Period) (today : Date) (db : DBState) :
    Except String PlotOutcome :=
  match generate_report p today db with
  | .error s => .error s
  | .ok r =>
    if r.by_category.isEmpty then .ok ⟨none, "No data to plot."⟩
    else
      let fname := "expenses_" ++ periodStr p ++ ".png"
      .ok ⟨some fname, "Saved plot to " ++ fname⟩

/-! ## Concrete fixtures (used by witnesses) -/

/-- A concrete "today". -/
def sampleToday : Date := ⟨2025, 7, 10⟩

/-- A concrete populated database (one record outside the weekly window of
`sampleToday`, one inside it). -/
def sampleDB : DBState :=
  some ⟨[⟨1, 1, "x", "2025-07-01"⟩, ⟨2, 2, "y", "2025-07-09"⟩], 3⟩

/-- The report of `sampleDB` for period `all` (its fields spelled as the
folds that produce them; they evaluate to
`⟨"all", 3, [("x", 1), ("y", 2)], some "2025-07-01", some "2025-07-09"⟩`). -/
def sampleReport : Report :=
  { period := periodStr Period.all
  , total := ((windowFilter Period.all sampleToday (entriesOf sampleDB)).map
      Entry.amount).sum
  , by_category := groupSums (windowFilter Period.all sampleToday (entriesOf sampleDB))
  , first_date := (minDates (datesOf (windowFilter Period.all sampleToday
      (entriesOf sampleDB)))).map isoFormat
  , last_date := (maxDates (datesOf (windowFilter Period.all sampleToday
      (entriesOf sampleDB)))).map isoFormat }

/-- The database obtained by inserting `(5,"a"), (7,"a"), (3,"b")`. -/
def sampleDB3 : DBState :=
  (add_expense 3 "b" (some "2025-07-02") sampleToday
    (add_expense 7 "a" (some "2025-07-02") sampleToday
      (add_expense 5 "a" (some "2025-07-01") sampleToday none).2).2).2

/-- A report with no matching records. -/
def emptyReport : Report :=
  { period := "monthly", total := 0, by_category := []
  , first_date := none, last_date := none }

/-! ## The summary and window properties (claims C1 and C2) -/

/-- What C1 asserts of a summary `r` produced by `generate_report`:
the period is echoed, the total is the arithmetic sum of the amounts of the
filtered set, `by_category` maps exactly the categories occurring in the
filtered set to their per-category sums, and `first_date`/`last_date` are
the calendar minimum/maximum of the filtered set's dates as ISO strings. -/
def summaryProp (p : Period) (today : Date) (db : DBState) (r : Report) :
    Prop :=
  let F := windowFilter p today (entriesOf db)
  let ds := datesOf F
  r.period = periodStr p ∧
  r.total = (F.map Entry.amount).sum ∧
  (∀ c, lookupA c r.by_category =
    if catSeen c F then some (sumCat c F) else none) ∧
  r.first_date = (minDates ds).map isoFormat ∧
  r.last_date = (maxDates ds).map isoFormat ∧
  (∀ m, minDates ds = some m → m ∈ ds ∧ ∀ d ∈ ds, dateLe m d = true) ∧
  (∀ m, maxDates ds = some m → m ∈ ds ∧ ∀ d ∈ ds, dateLe d m = true) ∧
  (F ≠ [] → (minDates ds).isSome = true ∧ (maxDates ds).isSome = true)

/-- What C2 asserts of the window filter of `generate_report`: the filter
step succeeds with exactly the records whose date is on/after the cutoff
(`today`, `today - 7 days`, `today - 30 days`; no record dropped for
`all`), and a record dated on/after `today` is included in every window. -/
def windowProp (p : Period) (today : Date) (es : List Entry) : Prop :=
  filterByPeriod p today es = .ok (windowFilter p today es) ∧
  (∀ e ∈ es, ∀ d, parseIsoDate e.date = some d →
    ((e ∈ windowFilter p today es) ↔
      (p = .all ∨ dateLe (cutoffFor p today) d = true)) ∧
    (dateLe today d = true → e ∈ windowFilter p today es)) ∧
  cutoffFor .daily today = today ∧
  cutoffFor .weekly today = subDays today 7 ∧
  cutoffFor .monthly today = subDays today 30

/-! ## Calendar order -/

theorem dateLe_refl (a : Date) : dateLe a a = true := by
  simp [dateLe]

theorem dateLe_trans {a b c : Date} (h1 : dateLe a b = true)
    (h2 : dateLe b c = true) : dateLe a c = true := by
  simp only [dateLe, decide_eq_true_eq] at h1 h2 ⊢
  omega

theorem dateLe_total (a b : Date) : dateLe a b = true ∨ dateLe b a = true := by
  simp only [dateLe, decide_eq_true_eq]
  omega

theorem predDay_le (d : Date) : dateLe (predDay d) d = true := by
  unfold predDay dateLe
  split
  · refine decide_eq_true ?_; dsimp only; omega
  · split
    · refine decide_eq_true ?_; dsimp only; omega
    · refine decide_eq_true ?_; dsimp only; omega

theorem subDays_le (d : Date) (n : Nat) : dateLe (subDays d n) d = true := by
  induction n with
  | zero => exact dateLe_refl d
  | succ n ih => exact dateLe_trans (predDay_le (subDays d n)) ih

theorem cutoffFor_le_today (p : Period) (today : Date) :
    dateLe (cutoffFor p today) today = true := by
  cases p with
  | daily => exact dateLe_refl today
  | weekly => exact subDays_le today 7
  | monthly => exact subDays_le today 30
  | all => exact dateLe_refl today

/-! ## Association-list (dict) lemmas -/

theorem lookupA_upsert (m : List (String × ℚ)) (k : String) (v : ℚ)
    (c : String) :
    lookupA c (upsert m k v) =
      if k = c then some ((lookupA c m).getD 0 + v) else lookupA c m := by
  induction m with
  | nil => by_cases hk : k = c <;> simp [upsert, lookupA, hk]
  | cons p m ih =>
    obtain ⟨k', v'⟩ := p
    by_cases h1 : k' = k
    · subst h1
      by_cases h2 : k' = c <;> simp [upsert, lookupA, h2]
    · by_cases h2 : k' = c
      · subst h2
        have : ¬ (k = k') := fun h => h1 h.symm
        simp [upsert, h1, lookupA, this]
      · simp [upsert, h1, lookupA, h2, ih]

theorem lookupA_fold (es : List Entry) (m : List (String × ℚ)) (c : String) :
    lookupA c (es.foldl (fun acc e => upsert acc e.category e.amount) m) =
      if (catSeen c es || (lookupA c m).isSome : Bool)
      then some ((lookupA c m).getD 0 + sumCat c es) else none := by
  induction es generalizing m with
  | nil =>
    cases h : lookupA c m <;> simp [catSeen, sumCat, h]
  | cons e tl ih =>
    simp only [List.foldl_cons]
    rw [ih, lookupA_upsert]
    by_cases hc : e.category = c
    · simp [hc, catSeen, sumCat, add_assoc]
    · simp [hc, catSeen, sumCat]

theorem lookupA_groupSums (es : List Entry) (c : String) :
    lookupA c (groupSums es) =
      if catSeen c es then some (sumCat c es) else none := by
  have h := lookupA_fold es [] c
  simpa [groupSums, lookupA] using h

theorem sumVals_upsert (m : List (String × ℚ)) (k : String) (v : ℚ) :
    sumVals (upsert m k v) = sumVals m + v := by
  induction m with
  | nil => simp [upsert, sumVals]
  | cons p m ih =>
    obtain ⟨k', v'⟩ := p
    by_cases h : k' = k
    · simp [upsert, h, sumVals]; ring
    · simp only [upsert, h, if_false, sumVals, List.map_cons, List.sum_cons]
      rw [show ((upsert m k v).map Prod.snd).sum = sumVals (upsert m k v) from rfl, ih]
      simp [sumVals]; ring

theorem sumVals_fold (es : List Entry) (m : List (String × ℚ)) :
    sumVals (es.foldl (fun acc e => upsert acc e.category e.amount) m) =
      sumVals m + (es.map Entry.amount).sum := by
  induction es generalizing m with
  | nil => simp
  | cons e tl ih =>
    simp only [List.foldl_cons, List.map_cons, List.sum_cons]
    rw [ih, sumVals_upsert]
    ring

theorem sumVals_groupSums (es : List Entry) :
    sumVals (groupSums es) = (es.map Entry.amount).sum := by
  have h := sumVals_fold es []
  simpa [groupSums, sumVals] using h

theorem keysOf_upsert (m : List (String × ℚ)) (k : String) (v : ℚ) :
    keysOf (upsert m k v) =
      if k ∈ keysOf m then keysOf m else keysOf m ++ [k] := by
  induction m with
  | nil => simp [upsert, keysOf]
  | cons p m ih =>
    obtain ⟨k', v'⟩ := p
    by_cases h : k' = k
    · simp [upsert, h, keysOf]
    · have : ¬ (k = k') := fun hk => h hk.symm
      simp only [upsert, h, if_false, keysOf, List.map_cons]
      rw [show (upsert m k v).map Prod.fst = keysOf (upsert m k v) from rfl, ih]
      simp only [keysOf]
      split
      · rename_i hk
        simp [List.mem_cons, hk]
      · rename_i hk
        simp [List.mem_cons, hk, this]

theorem nodup_keys_upsert (m : List (String × ℚ)) (k : String) (v : ℚ)
    (h : (keysOf m).Nodup) : (keysOf (upsert m k v)).Nodup := by
  rw [keysOf_upsert]
  split
  · exact h
  · rename_i hk
    simp [List.nodup_append, h, hk]

theorem nodup_keys_fold (es : List Entry) (m : List (String × ℚ))
    (h : (keysOf m).Nodup) :
    (keysOf (es.foldl (fun acc e => upsert acc e.category e.amount) m)).Nodup := by
  induction es generalizing m with
  | nil => exact h
  | cons e tl ih =>
    simp only [List.foldl_cons]
    exact ih _ (nodup_keys_upsert m e.category e.amount h)

theorem nodup_keys_groupSums (es : List Entry) :
    (keysOf (groupSums es)).Nodup :=
  nodup_keys_fold es [] (by simp [keysOf])

/-! ## Filtering and date collection -/

theorem allParse_filter (es : List Entry) (q : Entry → Bool)
    (h : allParse es) : allParse (es.filter q) := by
  intro e he
  exact h e (List.mem_of_mem_filter he)

theorem filterKeep_ok (cutoff : Date) (es : List Entry) (h : allParse es) :
    filterKeep cutoff es = .ok (es.filter (keepB cutoff)) := by
  induction es with
  | nil => rfl
  | cons e tl ih =>
    have he : (parseIsoDate e.date).isSome := h e (by simp)
    have htl : allParse tl := fun x hx => h x (by simp [hx])
    obtain ⟨d, hd⟩ := Option.isSome_iff_exists.mp he
    simp only [filterKeep, hd, ih htl, List.filter_cons, keepB]

theorem filterKeep_error_of_bad (cutoff : Date) (es : List Entry)
    (h : ∃ e ∈ es, parseIsoDate e.date = none) :
    ∃ s, filterKeep cutoff es = .error s := by
  induction es with
  | nil => simp at h
  | cons e tl ih =>
    cases hd : parseIsoDate e.date with
    | none => exact ⟨e.date, by simp [filterKeep, hd]⟩
    | some d =>
      obtain ⟨x, hx, hpx⟩ := h
      rcases List.mem_cons.mp hx with rfl | hx'
      · rw [hd] at hpx; cases hpx
      · obtain ⟨s, hs⟩ := ih ⟨x, hx', hpx⟩
        exact ⟨s, by simp [filterKeep, hd, hs]⟩

theorem filterByPeriod_ok (p : Period) (today : Date) (es : List Entry)
    (h : allParse es) :
    filterByPeriod p today es = .ok (windowFilter p today es) := by
  cases p with
  | all => rfl
  | daily => exact filterKeep_ok _ es h
  | weekly => exact filterKeep_ok _ es h
  | monthly => exact filterKeep_ok _ es h

theorem collectDates_ok (es : List Entry) (h : allParse es) :
    collectDates es = .ok (datesOf es) := by
  induction es with
  | nil => rfl
  | cons e tl ih =>
    have he : (parseIsoDate e.date).isSome := h e (by simp)
    have htl : allParse tl := fun x hx => h x (by simp [hx])
    obtain ⟨d, hd⟩ := Option.isSome_iff_exists.mp he
    simp [collectDates, hd, ih htl, datesOf, List.filterMap_cons]

theorem collectDates_error_of_bad (es : List Entry)
    (h : ∃ e ∈ es, parseIsoDate e.date = none) :
    ∃ s, collectDates es = .error s := by
  induction es with
  | nil => simp at h
  | cons e tl ih =>
    cases hd : parseIsoDate e.date with
    | none => exact ⟨e.date, by simp [collectDates, hd]⟩
    | some d =>
      obtain ⟨x, hx, hpx⟩ := h
      rcases List.mem_cons.mp hx with rfl | hx'
      · rw [hd] at hpx; cases hpx
      · obtain ⟨s, hs⟩ := ih ⟨x, hx', hpx⟩
        exact ⟨s, by simp [collectDates, hd, hs]⟩

theorem datesOf_ne_nil (es : List Entry) (h : allParse es) (hne : es ≠ []) :
    datesOf es ≠ [] := by
  cases es with
  | nil => exact absurd rfl hne
  | cons e tl =>
    have he : (parseIsoDate e.date).isSome := h e (by simp)
    obtain ⟨d, hd⟩ := Option.isSome_iff_exists.mp he
    simp [datesOf, List.filterMap_cons, hd]

/-! ## Minimum and maximum date -/

theorem dateMin_cases (a b : Date) : dateMin a b = a ∨ dateMin a b = b := by
  unfold dateMin; split <;> simp

theorem dateMin_le_left (a b : Date) : dateLe (dateMin a b) a = true := by
  unfold dateMin
  split
  · rename_i h
    exact (Bool.and_eq_true _ _ |>.mp h).1
  · exact dateLe_refl a

theorem dateMin_le_right (a b : Date) : dateLe (dateMin a b) b = true := by
  unfold dateMin
  split
  · exact dateLe_refl b
  · rename_i h
    rcases dateLe_total a b with hab | hba
    · exact hab
    · rcases dateLe_total b a with h' | h'
      · simp only [Bool.and_eq_true, Bool.not_eq_true'] at h
        rcases Decidable.em (dateLe a b = true) with hx | hx
        · exact hx
        · exact absurd ⟨hba, by simpa using hx⟩ h
      · exact h'

theorem dateMax_cases (a b : Date) : dateMax a b = a ∨ dateMax a b = b := by
  unfold dateMax; split <;> simp

theorem dateMax_ge_left (a b : Date) : dateLe a (dateMax a b) = true := by
  unfold dateMax
  split
  · rename_i h
    exact (Bool.and_eq_true _ _ |>.mp h).1
  · exact dateLe_refl a

theorem dateMax_ge_right (a b : Date) : dateLe b (dateMax a b) = true := by
  unfold dateMax
  split
  · exact dateLe_refl b
  · rename_i h
    simp only [Bool.and_eq_true, Bool.not_eq_true'] at h
    rcases Decidable.em (dateLe b a = true) with hx | hx
    · exact hx
    · rcases dateLe_total a b with hab | hba
      · exact absurd ⟨hab, by simpa using hx⟩ h
      · exact hba

theorem foldl_dateMin_mem (ds : List Date) (a : Date) :
    ds.foldl dateMin a ∈ a :: ds := by
  induction ds generalizing a with
  | nil => simp
  | cons d tl ih =>
    simp only [List.foldl_cons]
    have h := ih (dateMin a d)
    rcases List.mem_cons.mp h with h' | h'
    · rw [h']
      rcases dateMin_cases a d with h2 | h2 <;> rw [h2] <;> simp
    · simp [h']

theorem foldl_dateMin_le (ds : List Date) (a : Date) :
    dateLe (ds.foldl dateMin a) a = true ∧
    ∀ d ∈ ds, dateLe (ds.foldl dateMin a) d = true := by
  induction ds generalizing a with
  | nil => exact ⟨dateLe_refl a, by simp⟩
  | cons d tl ih =>
    simp only [List.foldl_cons]
    obtain ⟨h1, h2⟩ := ih (dateMin a d)
    refine ⟨dateLe_trans h1 (dateMin_le_left a d), ?_⟩
    intro x hx
    rcases List.mem_cons.mp hx with rfl | hx'
    · exact dateLe_trans h1 (dateMin_le_right a x)
    · exact h2 x hx'

theorem foldl_dateMax_mem (ds : List Date) (a : Date) :
    ds.foldl dateMax a ∈ a :: ds := by
  induction ds generalizing a with
  | nil => simp
  | cons d tl ih =>
    simp only [List.foldl_cons]
    have h := ih (dateMax a d)
    rcases List.mem_cons.mp h with h' | h'
    · rw [h']
      rcases dateMax_cases a d with h2 | h2 <;> rw [h2] <;> simp
    · simp [h']

theorem foldl_dateMax_ge (ds : List Date) (a : Date) :
    dateLe a (ds.foldl dateMax a) = true ∧
    ∀ d ∈ ds, dateLe d (ds.foldl dateMax a) = true := by
  induction ds generalizing a with
  | nil => exact ⟨dateLe_refl a, by simp⟩
  | cons d tl ih =>
    simp only [List.foldl_cons]
    obtain ⟨h1, h2⟩ := ih (dateMax a d)
    refine ⟨dateLe_trans (dateMax_ge_left a d) h1, ?_⟩
    intro x hx
    rcases List.mem_cons.mp hx with rfl | hx'
    · exact dateLe_trans (dateMax_ge_right a x) h1
    · exact h2 x hx'

theorem minDates_spec (ds : List Date) (m : Date) (h : minDates ds = some m) :
    m ∈ ds ∧ ∀ d ∈ ds, dateLe m d = true := by
  cases ds with
  | nil => cases h
  | cons d tl =>
    have hm : m = tl.foldl dateMin d := by
      simpa [minDates] using h.symm
    subst hm
    obtain ⟨h1, h2⟩ := foldl_dateMin_le tl d
    refine ⟨foldl_dateMin_mem tl d, ?_⟩
    intro x hx
    rcases List.mem_cons.mp hx with rfl | hx'
    · exact h1
    · exact h2 x hx'

theorem maxDates_spec (ds : List Date) (m : Date) (h : maxDates ds = some m) :
    m ∈ ds ∧ ∀ d ∈ ds, dateLe d m = true := by
  cases ds with
  | nil => cases h
  | cons d tl =>
    have hm : m = tl.foldl dateMax d := by
      simpa [maxDates] using h.symm
    subst hm
    obtain ⟨h1, h2⟩ := foldl_dateMax_ge tl d
    refine ⟨foldl_dateMax_mem tl d, ?_⟩
    intro x hx
    rcases List.mem_cons.mp hx with rfl | hx'
    · exact h1
    · exact h2 x hx'

/-! ## `generate_report` characterization -/

theorem allParse_window (p : Period) (today : Date) (es : List Entry)
    (hall : allParse es) : allParse (windowFilter p today es) := by
  cases p with
  | all => exact hall
  | daily => exact allParse_filter _ _ hall
  | weekly => exact allParse_filter _ _ hall
  | monthly => exact allParse_filter _ _ hall

theorem generate_report_ok (p : Period) (today : Date) (db : DBState)
    (hall : allParse (entriesOf db)) :
    generate_report p today db =
      .ok { period := periodStr p
          , total := ((windowFilter p today (entriesOf db)).map Entry.amount).sum
          , by_category := groupSums (windowFilter p today (entriesOf db))
          , first_date :=
              (minDates (datesOf (windowFilter p today (entriesOf db)))).map isoFormat
          , last_date :=
              (maxDates (datesOf (windowFilter p today (entriesOf db)))).map isoFormat } := by
  have hW := allParse_window p today (entriesOf db) hall
  simp only [generate_report, filterByPeriod_ok p today _ hall,
    collectDates_ok _ hW]

/-! ## The claims -/

/-- C1: for every record set whose dates parse and every period, the summary
returned by `generate_report` echoes the period, has `total` the arithmetic
sum of `amount` over the filtered set, has `by_category` mapping exactly the
categories occurring in the filtered set to their sums there, and has
`first_date`/`last_date` the calendar minimum/maximum date of the filtered
set as ISO strings. -/
theorem generate_report_summary (p : Period) (today : Date) (db : DBState)
    (r : Report) (hall : allParse (entriesOf db))
    (hok : generate_report p today db = .ok r) :
    summaryProp p today db r := by
  rw [generate_report_ok p today db hall] at hok
  injection hok with hok
  subst hok
  simp only [summaryProp]
  refine ⟨trivial, trivial, fun c => lookupA_groupSums _ c, trivial, trivial,
    fun m hm => minDates_spec _ m hm, fun m hm => maxDates_spec _ m hm, ?_⟩
  intro hne
  have hW := allParse_window p today (entriesOf db) hall
  have hds := datesOf_ne_nil _ hW hne
  cases hd : datesOf (windowFilter p today (entriesOf db)) with
  | nil => exact absurd hd hds
  | cons d tl => constructor <;> simp [minDates, maxDates, hd]

/-- Witness for C1 at a concrete database and period. -/
theorem generate_report_summary_witness :
    allParse (entriesOf sampleDB) ∧
    generate_report .all sampleToday sampleDB = .ok sampleReport ∧
    summaryProp .all sampleToday sampleDB sampleReport :=
  ⟨by decide, generate_report_ok .all sampleToday sampleDB (by decide),
    generate_report_summary .all sampleToday sampleDB sampleReport
      (by decide) (generate_report_ok .all sampleToday sampleDB (by decide))⟩

/-- C2: the window filter of `generate_report` keeps, for the periods
daily/weekly/monthly, exactly the records whose date is on or after the
cutoff (`today`, `today - 7 days`, `today - 30 days`, computed once from
`today`), keeps every record for `all`, and in particular keeps every
record dated in the future relative to `today` in every window. -/
theorem generate_report_window (p : Period) (today : Date) (es : List Entry)
    (hall : allParse es) : windowProp p today es := by
  refine ⟨filterByPeriod_ok p today es hall, ?_, rfl, rfl, rfl⟩
  intro e he d hd
  by_cases hp : p = .all
  · subst hp
    exact ⟨⟨fun _ => Or.inl rfl, fun _ => he⟩, fun _ => he⟩
  · have hWF : windowFilter p today es =
        es.filter (keepB (cutoffFor p today)) := by
      cases p with
      | all => exact absurd rfl hp
      | daily => rfl
      | weekly => rfl
      | monthly => rfl
    have hk : keepB (cutoffFor p today) e = dateLe (cutoffFor p today) d := by
      simp [keepB, hd]
    constructor
    · rw [hWF, List.mem_filter, hk]
      constructor
      · rintro ⟨-, h2⟩
        exact Or.inr h2
      · rintro (h2 | h2)
        · exact absurd h2 hp
        · exact ⟨he, h2⟩
    · intro hfut
      rw [hWF, List.mem_filter, hk]
      exact ⟨he, dateLe_trans (cutoffFor_le_today p today) hfut⟩

/-- Witness for C2 at a concrete record set and period. -/
theorem generate_report_window_witness :
    allParse (entriesOf sampleDB) ∧
    windowProp .weekly sampleToday (entriesOf sampleDB) :=
  ⟨by decide,
    generate_report_window .weekly sampleToday (entriesOf sampleDB)
      (by decide)⟩

/-- C3: whenever the filtering step returns the empty set (in particular
over an empty record set), `generate_report` returns numeric zero total, an
empty category mapping and null first/last dates. -/
theorem generate_report_empty (p : Period) (today : Date) (db : DBState)
    (h : filterByPeriod p today (entriesOf db) = .ok []) :
    generate_report p today db =
      .ok { period := periodStr p, total := 0, by_category := []
          , first_date := none, last_date := none } := by
  simp [generate_report, h, collectDates, minDates, maxDates, groupSums]

/-- Witness for C3: the empty database, period `monthly`. -/
theorem generate_report_empty_witness :
    filterByPeriod .monthly sampleToday (entriesOf (none : DBState)) = .ok [] ∧
    generate_report .monthly sampleToday none =
      .ok { period := periodStr .monthly, total := 0, by_category := []
          , first_date := none, last_date := none } :=
  ⟨by rfl, generate_report_empty .monthly sampleToday none (by rfl)⟩

/-- C4: `add_expense` with an explicit date returns exactly the inserted
fields, and the subsequent full scan is the previous scan extended with a
record whose fields equal the input (round-trip). -/
theorem add_then_scan_roundtrip (amount : ℚ) (category : String) (d : String)
    (today : Date) (db : DBState) :
    (add_expense amount category (some d) today db).1 =
      { amount := amount, category := category, date := d } ∧
    (get_all_expenses (add_expense amount category (some d) today db).2).1 =
      (get_all_expenses db).1 ++
        [{ amount := amount, category := category, date := d }] := by
  constructor
  · rfl
  · simp [add_expense, get_all_expenses, entriesOf, tableAfterInit,
      initialize_db, rowEntry]

/-- C5: `generate_report` fails (with the `DataIntegrityError` carrying the
offending date string) if and only if some stored record's date fails to
parse as an ISO calendar date; it never fails when every stored date
parses. -/
theorem generate_report_error_iff (p : Period) (today : Date) (db : DBState) :
    (∃ s, generate_report p today db = Except.error s) ↔
      ∃ e ∈ entriesOf db, parseIsoDate e.date = none := by
  by_cases hall : allParse (entriesOf db)
  · rw [generate_report_ok p today db hall]
    constructor
    · rintro ⟨s, hs⟩
      cases hs
    · rintro ⟨e, he, hpe⟩
      have h := hall e he
      rw [hpe] at h
      cases h
  · have hbad : ∃ e ∈ entriesOf db, parseIsoDate e.date = none := by
      simp only [allParse] at hall
      push_neg at hall
      obtain ⟨e, he, hpe⟩ := hall
      exact ⟨e, he, Option.not_isSome_iff_eq_none.mp hpe⟩
    have herr : ∃ s, generate_report p today db = Except.error s := by
      cases p with
      | all =>
        obtain ⟨s, hs⟩ := collectDates_error_of_bad _ hbad
        exact ⟨s, by simp [generate_report, filterByPeriod, hs]⟩
      | daily =>
        obtain ⟨s, hs⟩ :=
          filterKeep_error_of_bad (cutoffFor .daily today) _ hbad
        exact ⟨s, by simp [generate_report, filterByPeriod, hs]⟩
      | weekly =>
        obtain ⟨s, hs⟩ :=
          filterKeep_error_of_bad (cutoffFor .weekly today) _ hbad
        exact ⟨s, by simp [generate_report, filterByPeriod, hs]⟩
      | monthly =>
        obtain ⟨s, hs⟩ :=
          filterKeep_error_of_bad (cutoffFor .monthly today) _ hbad
        exact ⟨s, by simp [generate_report, filterByPeriod, hs]⟩
    exact iff_of_true herr hbad

/-- C6: `get_total_by_category` maps exactly the categories occurring among
the stored records to the sum of their amounts (one entry per distinct
category, no zero-fill), and on the database holding
`(5,"a"), (7,"a"), (3,"b")` it yields `{"a": 12, "b": 3}`. -/
theorem get_total_by_category_spec :
    (∀ (db : DBState) (c : String),
      lookupA c (get_total_by_category db).1 =
        if catSeen c (entriesOf db)
        then some (sumCat c (entriesOf db)) else none) ∧
    (∀ db : DBState, (keysOf (get_total_by_category db).1).Nodup) ∧
    (get_total_by_category sampleDB3).1 = [("a", 12), ("b", 3)] := by
  refine ⟨fun db c => lookupA_groupSums _ _,
    fun db => nodup_keys_groupSums _, ?_⟩
  norm_num [sampleDB3, get_total_by_category, entriesOf, tableAfterInit,
    initialize_db, add_expense, rowEntry, groupSums, upsert, isoFormat,
    List.foldl]
  decide

/-- C7: `add_expense` with the date omitted stores (and returns) a record
whose date is the current local calendar date in ISO `YYYY-MM-DD` form. -/
theorem add_expense_defaults_today (amount : ℚ) (category : String)
    (today : Date) (db : DBState) :
    (add_expense amount category none today db).1.date = isoFormat today ∧
    (get_all_expenses (add_expense amount category none today db).2).1 =
      (get_all_expenses db).1 ++
        [{ amount := amount, category := category, date := isoFormat today }] := by
  constructor
  · rfl
  · simp [add_expense, get_all_expenses, entriesOf, tableAfterInit,
      initialize_db, rowEntry]

/-- C8: schema initialization is idempotent: running `initialize_db` twice
leaves the storage exactly as running it once (no duplicate table, no loss
of stored records). -/
theorem initialize_db_idempotent (db : DBState) :
    initialize_db (initialize_db db) = initialize_db db := by
  cases db <;> rfl

/-- C9: when the summary's `by_category` is empty, `plot_expenses` produces
no file and emits the diagnostic; when it is non-empty it writes the image
file named `expenses_<period>.png`. -/
theorem plot_expenses_spec (p : Period) (today : Date) (db : DBState)
    (r : Report) (hok : generate_report p today db = .ok r) :
    (r.by_category = [] →
      plot_expenses p today db = .ok ⟨none, "No data to plot."⟩) ∧
    (r.by_category ≠ [] →
      plot_expenses p today db =
        .ok ⟨some ("expenses_" ++ periodStr p ++ ".png"),
             "Saved plot to " ++ ("expenses_" ++ periodStr p ++ ".png")⟩) := by
  constructor
  · intro h
    simp [plot_expenses, hok, h]
  · intro h
    simp [plot_expenses, hok, List.isEmpty_iff, h]

/-- Witness for C9: the empty database, period `monthly`. -/
theorem plot_expenses_spec_witness :
    generate_report .monthly sampleToday none = .ok emptyReport ∧
    (emptyReport.by_category = [] →
      plot_expenses .monthly sampleToday none =
        .ok ⟨none, "No data to plot."⟩) ∧
    (emptyReport.by_category ≠ [] →
      plot_expenses .monthly sampleToday none =
        .ok ⟨some ("expenses_" ++ periodStr .monthly ++ ".png"),
             "Saved plot to " ++ ("expenses_" ++ periodStr .monthly ++ ".png")⟩) :=
  ⟨by rfl,
    (plot_expenses_spec .monthly sampleToday none emptyReport (by rfl)).1,
    (plot_expenses_spec .monthly sampleToday none emptyReport (by rfl)).2⟩

/-- C10: in every summary returned by `generate_report`, `total` equals the
sum of the values of `by_category`. -/
theorem report_total_eq_sumVals (p : Period) (today : Date) (db : DBState)
    (r : Report) (hok : generate_report p today db = .ok r) :
    r.total = sumVals r.by_category := by
  simp only [generate_report] at hok
  cases hf : filterByPeriod p today (entriesOf db) with
  | error s =>
    rw [hf] at hok
    simp at hok
  | ok filtered =>
    rw [hf] at hok
    dsimp only at hok
    cases hc : collectDates filtered with
    | error s =>
      rw [hc] at hok
      simp at hok
    | ok ds =>
      rw [hc] at hok
      simp only [Except.ok.injEq] at hok
      subst hok
      show (filtered.map Entry.amount).sum = sumVals (groupSums filtered)
      exact (sumVals_groupSums filtered).symm

/-- Witness for C10 at a concrete database and period. -/
theorem report_total_eq_sumVals_witness :
    generate_report .all sampleToday sampleDB = .ok sampleReport ∧
    sampleReport.total = sumVals sampleReport.by_category :=
  ⟨generate_report_ok .all sampleToday sampleDB (by decide),
    report_total_eq_sumVals .all sampleToday sampleDB sampleReport
      (generate_report_ok .all sampleToday sampleDB (by decide))⟩

end ExpenseTracker
